import Mathlib

/-!
Verification of the federation/aggregation core of a multi-tenant RAG
infrastructure API.  Python source functions are shallowly embedded as Lean
definitions over `List Char` strings and an explicit `PyVal` value type; the
claims of the specification are then settled as theorems about those
definitions.

Covered source functions:
* `app/services/multi_vector_store.py`: `sanitize_metadata`,
  `build_collection_name`, `parse_collection_name`
* `app/services/context_service.py`: `compare_state_vs_live`,
  `search_context` (merge step)
* `app/services/index_group_manager.py`: `build_agent_context`,
  `unified_search`
* `app/services/memory_service.py`: `promote_to_longterm`, `get_memory`
-/

set_option autoImplicit false

namespace RagInfra

/-- Strings are modelled as lists of characters (`str.data`). -/
abbrev Str := List Char

/-! ## Namespace resolver: `"__".join` and `str.split("__")`

`build_collection_name` joins the present address fields with the separator
`"__"`; `parse_collection_name` splits on `"__"` (Python `str.split`:
leftmost, non-overlapping occurrences). -/

/-- Python `s.split("__")`: scan left to right; each non-overlapping
occurrence of the two-underscore separator ends the current part. -/
def splitSep : Str → List Str
  | [] => [[]]
  | [c] => [[c]]
  | c :: d :: rest =>
    if c = '_' ∧ d = '_' then [] :: splitSep rest
    else
      match splitSep (d :: rest) with
      | [] => [[c]]
      | p :: ps => (c :: p) :: ps

/-- Python `"__".join(parts)`. -/
def joinSep : List Str → Str
  | [] => []
  | [p] => p
  | p :: rest => p ++ '_' :: '_' :: joinSep rest

/-- `true` iff the string contains the two-character separator `"__"`. -/
def hasSep : Str → Bool
  | [] => false
  | [_] => false
  | c :: d :: rest => (c = '_' ∧ d = '_' : Bool) || hasSep (d :: rest)

set_option linter.unnecessarySeqFocus false
set_option linter.unreachableTactic false
set_option linter.unusedTactic false
set_option linter.unusedVariables false

theorem splitSep_ne_nil (s : Str) : splitSep s ≠ [] := by
  induction s using splitSep.induct <;> (try simp_all [splitSep]) <;>
    (split <;> simp_all)

/-- A separator-free string splits into a single part. -/
theorem splitSep_of_not_hasSep (p : Str) (h : hasSep p = false) :
    splitSep p = [p] := by
  induction p using splitSep.induct <;> simp_all [splitSep, hasSep]

/-- Splitting a `"__"`-joined cons: if the first part is non-empty, has no
embedded separator and does not end in `'_'`, the split peels it off whole. -/
theorem splitSep_append_sep (p : Str) (rest : Str) (hne : p ≠ [])
    (hsep : hasSep p = false) (hlast : p.getLast? ≠ some '_') :
    splitSep (p ++ '_' :: '_' :: rest) = p :: splitSep rest := by
  induction p with
  | nil => exact absurd rfl hne
  | cons c p' ih =>
    cases p' with
    | nil =>
      have hcu : c ≠ '_' := by
        intro hc
        exact hlast (by simp [hc])
      rw [List.singleton_append, splitSep]
      rw [if_neg (fun h => hcu h.1), splitSep]
      rw [if_pos ⟨rfl, rfl⟩]
    | cons d p'' =>
      have hsep' : hasSep (d :: p'') = false := by
        rw [hasSep] at hsep
        exact (Bool.or_eq_false_iff.mp hsep).2
      have hcd : ¬(c = '_' ∧ d = '_') := by
        intro hh
        rw [hasSep] at hsep
        rw [(Bool.decide_iff _).mpr hh] at hsep
        simp at hsep
      have hlast' : (d :: p'').getLast? ≠ some '_' := by
        simpa [List.getLast?_cons_cons] using hlast
      have hrec := ih (by simp) hsep' hlast'
      rw [List.cons_append, List.cons_append, splitSep]
      rw [List.cons_append] at hrec
      rw [if_neg hcd]
      cases hq : splitSep (d :: (p'' ++ '_' :: '_' :: rest)) with
      | nil => exact absurd hq (splitSep_ne_nil _)
      | cons q qs =>
        rw [hq] at hrec
        have hq1 : q = d :: p'' := (List.cons.injEq _ _ _ _ ▸ hrec).1
        have hq2 : qs = splitSep rest := (List.cons.injEq _ _ _ _ ▸ hrec).2
        simp [hq1, hq2]

/-- Joining a non-empty list of parts splits back into the same parts,
provided every part but the last is non-empty, separator-free and does not
end in `'_'`, and the last part is separator-free. -/
theorem splitSep_joinSep (ps : List Str) (hne : ps ≠ [])
    (hmid : ∀ p ∈ ps.dropLast, p ≠ [] ∧ hasSep p = false ∧ p.getLast? ≠ some '_')
    (hlast : hasSep (ps.getLast?.getD []) = false) :
    splitSep (joinSep ps) = ps := by
  induction ps with
  | nil => exact absurd rfl hne
  | cons p rest ih =>
    cases rest with
    | nil =>
      have hj : joinSep [p] = p := rfl
      rw [hj]
      exact splitSep_of_not_hasSep p (by simpa using hlast)
    | cons q r =>
      have hj : joinSep (p :: q :: r) = p ++ '_' :: '_' :: joinSep (q :: r) := rfl
      have hp := hmid p (by simp)
      rw [hj, splitSep_append_sep p _ hp.1 hp.2.1 hp.2.2]
      congr 1
      refine ih (by simp) (fun x hx => hmid x ?_) (by simpa using hlast)
      have : (p :: q :: r).dropLast = p :: (q :: r).dropLast := rfl
      rw [this]
      exact List.mem_cons_of_mem p hx

/-! ## Collection addresses: `build_collection_name` / `parse_collection_name` -/

/-- The address tuple `(indexGroup, subIndex, userId, accountId?, projectId?)`. -/
structure CollectionAddress where
  index_group : Str
  subindex : Str
  user_id : Str
  account_id : Option Str
  project_id : Option Str
deriving DecidableEq

/-- A Python-truthy optional field contributes one part; `None` and the empty
string (both falsy) contribute none.  Mirrors
`if account_id: parts.append(account_id)`. -/
def pyTruthyOptParts : Option Str → List Str
  | none => []
  | some s => if s = [] then [] else [s]

/-- `MultiVectorStoreService.build_collection_name`:
`"__".join([index_group, subindex, user_id] + optional parts)`. -/
def build_collection_name (index_group subindex user_id : Str)
    (account_id project_id : Option Str) : Str :=
  joinSep ([index_group, subindex, user_id] ++ pyTruthyOptParts account_id
    ++ pyTruthyOptParts project_id)

def buildName (a : CollectionAddress) : Str :=
  build_collection_name a.index_group a.subindex a.user_id a.account_id a.project_id

/-- The dictionary returned by `parse_collection_name`; a missing position is
`None`. -/
structure ParsedCollectionName where
  index_group : Option Str
  subindex : Option Str
  user_id : Option Str
  account_id : Option Str
  project_id : Option Str
deriving DecidableEq

/-- `MultiVectorStoreService.parse_collection_name`: split on `"__"` and read
the first five positions. -/
def parse_collection_name (s : Str) : ParsedCollectionName :=
  let parts := splitSep s
  ⟨parts[0]?, parts[1]?, parts[2]?, parts[3]?, parts[4]?⟩

/-- The parse that exact field recovery would produce for an address. -/
def expectedParse (a : CollectionAddress) : ParsedCollectionName :=
  ⟨some a.index_group, some a.subindex, some a.user_id, a.account_id, a.project_id⟩

/-- Field validity as the claim states it: non-empty, no `"__"` occurrence. -/
def fieldOk (f : Str) : Bool := !f.isEmpty && !hasSep f

/-- Validity needed for a non-final part: additionally no trailing `'_'`
(otherwise joining manufactures a spurious separator at the boundary). -/
def fieldMid (f : Str) : Bool := fieldOk f && !(f.getLast? == some '_')

/-- The claim's hypothesis: every present field non-empty with no `"__"`. -/
def claimValidAddress (a : CollectionAddress) : Bool :=
  fieldOk a.index_group && fieldOk a.subindex && fieldOk a.user_id &&
    (match a.account_id with | none => true | some x => fieldOk x) &&
    (match a.project_id with | none => true | some x => fieldOk x)

/-- The amended hypothesis: non-final present fields must also not end in
`'_'`, and a present `projectId` requires a present `accountId`. -/
def validAddress (a : CollectionAddress) : Bool :=
  fieldMid a.index_group && fieldMid a.subindex &&
    (match a.account_id, a.project_id with
     | none, none => fieldOk a.user_id
     | some acc, none => fieldMid a.user_id && fieldOk acc
     | some acc, some proj => fieldMid a.user_id && fieldMid acc && fieldOk proj
     | none, some _ => false)

theorem fieldOk_iff {f : Str} :
    fieldOk f = true ↔ f ≠ [] ∧ hasSep f = false := by
  simp [fieldOk, List.isEmpty_iff]

theorem fieldMid_iff {f : Str} :
    fieldMid f = true ↔ f ≠ [] ∧ hasSep f = false ∧ f.getLast? ≠ some '_' := by
  simp [fieldMid, fieldOk, List.isEmpty_iff, and_assoc]

/-- For a valid address, splitting the built name recovers the part list. -/
theorem splitSep_buildName (a : CollectionAddress) (h : validAddress a = true) :
    splitSep (buildName a) = [a.index_group, a.subindex, a.user_id]
      ++ pyTruthyOptParts a.account_id ++ pyTruthyOptParts a.project_id := by
  obtain ⟨g, s, u, acc, proj⟩ := a
  simp only [validAddress, Bool.and_eq_true] at h
  obtain ⟨⟨hg, hs⟩, hrest⟩ := h
  rw [fieldMid_iff] at hg hs
  cases acc with
  | none =>
    cases proj with
    | none =>
      rw [fieldOk_iff] at hrest
      have hnone : pyTruthyOptParts none = [] := rfl
      simp only [buildName, build_collection_name, hnone, List.append_nil]
      apply splitSep_joinSep _ (by simp)
      · intro p hp
        have hd : List.dropLast [g, s, u] = [g, s] := rfl
        rw [hd] at hp
        simp only [List.mem_cons, List.not_mem_nil, or_false] at hp
        rcases hp with rfl | rfl
        · exact hg
        · exact hs
      · simpa using hrest.2
    | some proj => simp at hrest
  | some acc =>
    cases proj with
    | none =>
      rw [Bool.and_eq_true, fieldMid_iff, fieldOk_iff] at hrest
      obtain ⟨hu, hacc⟩ := hrest
      have hji : pyTruthyOptParts (some acc) = [acc] := by
        simp [pyTruthyOptParts, hacc.1]
      have hnone : pyTruthyOptParts none = [] := rfl
      simp only [buildName, build_collection_name, hji, hnone,
        List.append_nil, List.cons_append, List.nil_append]
      apply splitSep_joinSep _ (by simp)
      · intro p hp
        have hd : List.dropLast [g, s, u, acc] = [g, s, u] := rfl
        rw [hd] at hp
        simp only [List.mem_cons, List.not_mem_nil, or_false] at hp
        rcases hp with rfl | rfl | rfl
        · exact hg
        · exact hs
        · exact hu
      · simpa using hacc.2
    | some proj =>
      rw [Bool.and_eq_true, Bool.and_eq_true, fieldMid_iff, fieldMid_iff,
        fieldOk_iff] at hrest
      obtain ⟨⟨hu, hacc⟩, hproj⟩ := hrest
      have hja : pyTruthyOptParts (some acc) = [acc] := by
        simp [pyTruthyOptParts, hacc.1]
      have hjp : pyTruthyOptParts (some proj) = [proj] := by
        simp [pyTruthyOptParts, hproj.1]
      simp only [buildName, build_collection_name, hja, hjp,
        List.cons_append, List.nil_append]
      apply splitSep_joinSep _ (by simp)
      · intro p hp
        have hd : List.dropLast [g, s, u, acc, proj] = [g, s, u, acc] := rfl
        rw [hd] at hp
        simp only [List.mem_cons, List.not_mem_nil, or_false] at hp
        rcases hp with rfl | rfl | rfl | rfl
        · exact hg
        · exact hs
        · exact hu
        · exact hacc
      · simpa using hproj.2

/-- String literal helper: a Python `str` as a `List Char`. -/
def lit (s : String) : Str := s.data

theorem band_true {a b : Bool} (h : (a && b) = true) :
    a = true ∧ b = true := by
  simpa using h

/-- C5 (amended): for addresses whose present fields are non-empty,
`"__"`-free, do not end in `'_'` when another field follows, and whose
`projectId` is only present when `accountId` is, decoding the encoded
collection name recovers exactly the encoded fields, and encoding is
injective on such addresses. -/
theorem address_roundtrip (a : CollectionAddress) (h : validAddress a = true) :
    parse_collection_name (buildName a) = expectedParse a ∧
    ∀ b : CollectionAddress, validAddress b = true →
      buildName a = buildName b → a = b := by
  have key : ∀ c : CollectionAddress, validAddress c = true →
      parse_collection_name (buildName c) = expectedParse c := by
    intro c hc
    have hsplit := splitSep_buildName c hc
    obtain ⟨g, s, u, acc, proj⟩ := c
    cases acc with
    | none =>
      cases proj with
      | none =>
        simp only [pyTruthyOptParts, List.append_nil] at hsplit
        simp [parse_collection_name, hsplit, expectedParse]
      | some proj =>
        exfalso
        simp [validAddress] at hc
    | some acc =>
      cases proj with
      | none =>
        have hacc : acc ≠ [] := by
          simp only [validAddress, Bool.and_eq_true] at hc
          exact (fieldOk_iff.mp hc.2.2).1
        simp only [pyTruthyOptParts, List.append_nil, if_neg hacc] at hsplit
        simp [parse_collection_name, hsplit, expectedParse]
      | some proj =>
        have hvp := hc
        simp only [validAddress, Bool.and_eq_true] at hvp
        have hacc : acc ≠ [] :=
          (fieldMid_iff.mp hvp.2.1.2).1
        have hproj : proj ≠ [] :=
          (fieldOk_iff.mp hvp.2.2).1
        simp only [pyTruthyOptParts, if_neg hacc, if_neg hproj] at hsplit
        simp [parse_collection_name, hsplit, expectedParse]
  refine ⟨key a h, fun b hb hab => ?_⟩
  have h1 := key a h
  have h2 := key b hb
  rw [hab, h2] at h1
  obtain ⟨g, s, u, acc, proj⟩ := a
  obtain ⟨g', s', u', acc', proj'⟩ := b
  simp only [expectedParse, ParsedCollectionName.mk.injEq, Option.some.injEq] at h1
  simp [CollectionAddress.mk.injEq, h1.1, h1.2.1, h1.2.2.1, h1.2.2.2.1,
    h1.2.2.2.2]

/-- Witness for C5 at a concrete valid address. -/
theorem address_roundtrip_witness :
    validAddress ⟨lit ("terraform"), lit ("semantic"), lit ("usr123"),
        some (lit ("acc456")), some (lit ("proj789"))⟩ = true ∧
      parse_collection_name (buildName ⟨lit ("terraform"), lit ("semantic"),
        lit ("usr123"), some (lit ("acc456")), some (lit ("proj789"))⟩) =
      expectedParse ⟨lit ("terraform"), lit ("semantic"), lit ("usr123"),
        some (lit ("acc456")), some (lit ("proj789"))⟩ :=
  ⟨by decide, (address_roundtrip _ (by decide)).1⟩

/-- Counterexample to C5 as stated: all fields below are non-empty and free of
`"__"`, yet (i) an address with `projectId` present but `accountId` absent
does not round-trip (the project shifts into the account position) and is not
distinguished from the corresponding account-only address, and (ii) a field
ending in `'_'` makes the join manufacture a spurious separator, so the
round-trip also fails. -/
theorem address_roundtrip_cex :
    (claimValidAddress ⟨lit ("ig"), lit ("si"), lit ("us"), none,
        some (lit ("pj"))⟩ = true ∧
      parse_collection_name (buildName ⟨lit ("ig"), lit ("si"), lit ("us"),
        none, some (lit ("pj"))⟩) ≠
        expectedParse ⟨lit ("ig"), lit ("si"), lit ("us"), none,
          some (lit ("pj"))⟩) ∧
    (claimValidAddress ⟨lit ("ig"), lit ("si"), lit ("us"),
        some (lit ("pj")), none⟩ = true ∧
      (⟨lit ("ig"), lit ("si"), lit ("us"), none, some (lit ("pj"))⟩ :
          CollectionAddress) ≠
        ⟨lit ("ig"), lit ("si"), lit ("us"), some (lit ("pj")), none⟩ ∧
      buildName ⟨lit ("ig"), lit ("si"), lit ("us"), none,
          some (lit ("pj"))⟩ =
        buildName ⟨lit ("ig"), lit ("si"), lit ("us"), some (lit ("pj")),
          none⟩) ∧
    (claimValidAddress ⟨lit ("g"), lit ("a_"), lit ("u"), none, none⟩ = true ∧
      parse_collection_name (buildName ⟨lit ("g"), lit ("a_"), lit ("u"),
        none, none⟩) ≠
        expectedParse ⟨lit ("g"), lit ("a_"), lit ("u"), none, none⟩) := by
  decide

/-! ## C6: decoding arbitrary strings -/

/-- The only value of the code's return type that could count as a
"not well-formed" report: a parse with no field populated.  (The code has no
failure channel: `parse_collection_name` is total and never raises.) -/
def reportsNotWellFormed (r : ParsedCollectionName) : Prop :=
  r = ⟨none, none, none, none, none⟩

/-- Every encoded name contains `'_'`: the join of the three mandatory parts
inserts the separator. -/
theorem sep_mem_buildName (a : CollectionAddress) : '_' ∈ buildName a := by
  obtain ⟨g, s, u, acc, proj⟩ := a
  have hj : buildName ⟨g, s, u, acc, proj⟩ =
      g ++ '_' :: '_' :: joinSep ([s, u] ++ pyTruthyOptParts acc
        ++ pyTruthyOptParts proj) := rfl
  rw [hj]
  exact List.mem_append_right _ (List.mem_cons_self _ _)

/-- C6 (amended): decoding never fails closed.  For every input string —
whether or not it was produced by the encoder — `parse_collection_name`
returns a positionally-guessed record whose `index_group` field is always
populated (with the first `"__"`-separated part); it never reports the
string as not well-formed. -/
theorem parse_fails_open (s : Str) :
    (parse_collection_name s).index_group = some ((splitSep s).headI) ∧
      ¬ reportsNotWellFormed (parse_collection_name s) := by
  have hcons : ∃ p ps, splitSep s = p :: ps := by
    cases h : splitSep s with
    | nil => exact absurd h (splitSep_ne_nil s)
    | cons p ps => exact ⟨p, ps, rfl⟩
  obtain ⟨p, ps, hp⟩ := hcons
  constructor
  · simp [parse_collection_name, hp]
  · intro hrep
    rw [reportsNotWellFormed] at hrep
    have : (parse_collection_name s).index_group = none := by rw [hrep]
    rw [parse_collection_name] at this
    simp [hp] at this

/-- Counterexample to C6 as stated: the string `"x"` is not produced by the
encoder on any address (every encoded name contains `'_'`), yet decoding it
does not report "not well-formed" — it silently returns a guessed address
with `index_group = "x"`. -/
theorem parse_fails_open_cex :
    (∀ a : CollectionAddress, buildName a ≠ lit ("x")) ∧
      ¬ reportsNotWellFormed (parse_collection_name (lit ("x"))) ∧
      (parse_collection_name (lit ("x"))).index_group = some (lit ("x")) := by
  refine ⟨fun a hx => ?_, ?_, by decide⟩
  · have hm := sep_mem_buildName a
    rw [hx] at hm
    simp [lit] at hm
  · intro hrep
    rw [reportsNotWellFormed] at hrep
    have : (parse_collection_name (lit ("x"))).index_group = none := by
      rw [hrep]
    revert this
    decide

/-! ## Python values and `sanitize_metadata` -/

/-- Python values as they occur in metadata and resource attributes.
Floats are modelled as rationals. -/
inductive PyVal where
  | pnone
  | pbool (b : Bool)
  | pint (i : Int)
  | pfloat (q : ℚ)
  | pstr (s : Str)
  | plist (xs : List PyVal)
  | pdict (entries : List (Str × PyVal))

/-- Python's `v is None` identity test (an identity check against the
singleton `None` object, i.e. a constructor test). -/
def isNoneVal : PyVal → Bool
  | .pnone => true
  | _ => false

/-- Python's single-quote character used by `repr` on strings. -/
def quoteChar : Char := Char.ofNat 39

/-- Rendering of a float.  Integral values print as Python does (`"2.0"`);
non-integral values are rendered as `num/den`, a modelling simplification —
no claim verified here depends on float rendering. -/
def floatStr (q : ℚ) : Str :=
  if q.den = 1 then (toString q.num).data ++ ['.', '0']
  else (toString q.num).data ++ '/' :: (toString q.den).data

mutual

/-- Python `repr`, as used by `str()` on containers.  String escaping inside
`repr` is not modelled; no claim depends on it. -/
def pyRepr : PyVal → Str
  | .pnone => ('N' :: 'o' :: 'n' :: 'e' :: [])
  | .pbool true => ('T' :: 'r' :: 'u' :: 'e' :: [])
  | .pbool false => ('F' :: 'a' :: 'l' :: 's' :: 'e' :: [])
  | .pint i => (toString i).data
  | .pfloat q => floatStr q
  | .pstr s => quoteChar :: s ++ [quoteChar]
  | .plist xs => '[' :: pyReprJoin xs ++ [']']
  | .pdict es => '\x7b' :: pyReprEntries es ++ ['\x7d']

def pyReprJoin : List PyVal → Str
  | [] => []
  | [x] => pyRepr x
  | x :: y :: xs => pyRepr x ++ ',' :: ' ' :: pyReprJoin (y :: xs)

def pyReprEntries : List (Str × PyVal) → Str
  | [] => []
  | [(k, v)] => quoteChar :: k ++ quoteChar :: ':' :: ' ' :: pyRepr v
  | (k, v) :: e :: es =>
    quoteChar :: k ++ quoteChar :: ':' :: ' ' :: pyRepr v
      ++ ',' :: ' ' :: pyReprEntries (e :: es)

end

/-- Python `str(v)`: identity on strings, `repr`-like everywhere else. -/
def pyStr : PyVal → Str
  | .pstr s => s
  | v => pyRepr v

/-- The value types ChromaDB accepts: Bool, Int, Float, Str. -/
def isScalar : PyVal → Bool
  | .pbool _ => true
  | .pint _ => true
  | .pfloat _ => true
  | .pstr _ => true
  | _ => false

/-- Python `",".join(parts)`. -/
def joinComma : List Str → Str
  | [] => []
  | [s] => s
  | s :: t :: rest => s ++ ',' :: joinComma (t :: rest)

/-- One value through `sanitize_metadata`'s per-value branches:
`None` to `""`; scalars kept; lists joined by `","` over `str(v)` of the
non-`None` elements; anything else through `str(value)`. -/
def sanitizeValue : PyVal → PyVal
  | .pnone => .pstr []
  | .pbool b => .pbool b
  | .pint i => .pint i
  | .pfloat q => .pfloat q
  | .pstr s => .pstr s
  | .plist xs =>
    .pstr (joinComma ((xs.filter (fun v => !isNoneVal v)).map pyStr))
  | .pdict es => .pstr (pyRepr (.pdict es))

/-- `sanitize_metadata` (multi_vector_store.py): rebuild the dict with every
value sanitized. -/
def sanitize_metadata (m : List (Str × PyVal)) : List (Str × PyVal) :=
  m.map (fun kv => (kv.1, sanitizeValue kv.2))

theorem isScalar_sanitizeValue (v : PyVal) :
    isScalar (sanitizeValue v) = true := by
  cases v <;> rfl

/-- C7 (amended): sanitization maps every metadata value to a scalar
(boolean, integer, float or string); a null value becomes the empty string;
a list value becomes the `","`-join of the string conversions of its
non-null elements (null elements are dropped, not rendered). -/
theorem sanitize_metadata_spec (m : List (Str × PyVal)) (k : Str) (v : PyVal)
    (h : (k, v) ∈ m) :
    (∀ p ∈ sanitize_metadata m, isScalar p.2 = true) ∧
      (k, sanitizeValue v) ∈ sanitize_metadata m ∧
      (v = PyVal.pnone → sanitizeValue v = PyVal.pstr []) ∧
      ∀ xs, v = PyVal.plist xs → sanitizeValue v =
        PyVal.pstr (joinComma ((xs.filter (fun x => !isNoneVal x)).map pyStr)) := by
  refine ⟨?_, ?_, ?_, ?_⟩
  · intro p hp
    rw [sanitize_metadata] at hp
    obtain ⟨q, _, rfl⟩ := List.mem_map.mp hp
    exact isScalar_sanitizeValue q.2
  · rw [sanitize_metadata]
    exact List.mem_map.mpr ⟨(k, v), h, rfl⟩
  · intro hv
    rw [hv]
    rfl
  · intro xs hv
    rw [hv]
    rfl

/-- Witness for C7 at a concrete metadata map. -/
theorem sanitize_metadata_spec_witness :
    ((lit ("tags"), PyVal.plist [PyVal.pstr (lit ("a")), PyVal.pnone]) ∈
        [(lit ("tags"), PyVal.plist [PyVal.pstr (lit ("a")), PyVal.pnone])]) ∧
      ∀ p ∈ sanitize_metadata
        [(lit ("tags"), PyVal.plist [PyVal.pstr (lit ("a")), PyVal.pnone])],
        isScalar p.2 = true :=
  ⟨List.mem_singleton.mpr rfl,
   (sanitize_metadata_spec _ (lit ("tags"))
     (PyVal.plist [PyVal.pstr (lit ("a")), PyVal.pnone])
     (List.mem_singleton.mpr rfl)).1⟩

/-- Counterexample to C7 as stated: for the list `["a", None, "b"]` the code
joins only the non-`None` elements, producing `"a,b"`, not the join of the
string conversions of *all* elements (`"a,None,b"`). -/
theorem sanitize_metadata_cex :
    sanitizeValue (PyVal.plist
        [PyVal.pstr (lit ("a")), PyVal.pnone, PyVal.pstr (lit ("b"))]) =
      PyVal.pstr (lit ("a,b")) ∧
    joinComma (([PyVal.pstr (lit ("a")), PyVal.pnone,
        PyVal.pstr (lit ("b"))]).map pyStr) = lit ("a,None,b") ∧
    lit ("a,b") ≠ lit ("a,None,b") := by
  refine ⟨rfl, rfl, by decide⟩

/-! ## Python `==` on values

Used by the drift detector's `state_data.get(key) != live_data.get(key)`.
Numeric values compare across `bool`/`int`/`float` (Python's numeric tower);
lists compare pointwise; dicts compare by key lookup, order-insensitively. -/

/-- The numeric value of a `bool`/`int`/`float`, if any. -/
def numVal : PyVal → Option ℚ
  | .pbool b => some (if b then 1 else 0)
  | .pint i => some (i : ℚ)
  | .pfloat q => some q
  | _ => none

/-- First value stored under key `k`. -/
def lookupStr (ys : List (Str × PyVal)) (k : Str) : Option PyVal :=
  match ys.find? (fun p => p.1 == k) with
  | some p => some p.2
  | none => none

mutual

def pyEq : PyVal → PyVal → Bool
  | .pnone, .pnone => true
  | .pstr s, .pstr t => s == t
  | .plist xs, .plist ys => pyEqList xs ys
  | .pdict xs, .pdict ys => xs.length == ys.length && pyEqEntries xs ys
  | a, b =>
    match numVal a, numVal b with
    | some x, some y => x == y
    | _, _ => false

def pyEqList : List PyVal → List PyVal → Bool
  | [], [] => true
  | x :: xs, y :: ys => pyEq x y && pyEqList xs ys
  | _, _ => false

def pyEqEntries : List (Str × PyVal) → List (Str × PyVal) → Bool
  | [], _ => true
  | (k, v) :: rest, ys =>
    (match lookupStr ys k with
     | some w => pyEq v w
     | none => false) && pyEqEntries rest ys

end

mutual

/-- Well-formedness of a value as the image of a real Python value: every
nested dict has distinct keys (an assoc list with duplicate keys represents
no Python dict). -/
def wfVal : PyVal → Bool
  | .plist xs => wfValList xs
  | .pdict es => decide (es.map Prod.fst).Nodup && wfValEntries es
  | _ => true

def wfValList : List PyVal → Bool
  | [] => true
  | x :: xs => wfVal x && wfValList xs

def wfValEntries : List (Str × PyVal) → Bool
  | [] => true
  | (_, v) :: es => wfVal v && wfValEntries es

end

theorem find_nodup {α : Type} (es : List (Str × α))
    (hnd : (es.map Prod.fst).Nodup) (k : Str) (v : α) (hm : (k, v) ∈ es) :
    es.find? (fun p => p.1 == k) = some (k, v) := by
  induction es with
  | nil => simp at hm
  | cons e rest ih =>
    rcases List.mem_cons.mp hm with rfl | hm'
    · simp [List.find?]
    · have hk : e.1 ≠ k := by
        intro hk
        have : e.1 ∈ rest.map Prod.fst :=
          List.mem_map.mpr ⟨(k, v), hm', by simp [hk]⟩
        exact (List.nodup_cons.mp hnd).1 this
      have hbe : (e.1 == k) = false := by
        simp [hk]
      rw [List.find?]
      rw [hbe]
      exact ih (List.nodup_cons.mp hnd).2 hm'

theorem pyEqList_refl (xs : List PyVal) (h : ∀ x ∈ xs, pyEq x x = true) :
    pyEqList xs xs = true := by
  induction xs with
  | nil => rfl
  | cons x rest ih =>
    rw [pyEqList, Bool.and_eq_true]
    exact ⟨h x (by simp), ih fun y hy => h y (by simp [hy])⟩

theorem pyEqEntries_refl (es : List (Str × PyVal))
    (hnd : (es.map Prod.fst).Nodup) (h : ∀ p ∈ es, pyEq p.2 p.2 = true) :
    pyEqEntries es es = true := by
  have key : ∀ sub : List (Str × PyVal), (∀ p ∈ sub, p ∈ es) →
      pyEqEntries sub es = true := by
    intro sub hsub
    induction sub with
    | nil => rfl
    | cons p rest ih =>
      obtain ⟨k, v⟩ := p
      rw [pyEqEntries, Bool.and_eq_true]
      constructor
      · rw [lookupStr, find_nodup es hnd k v (hsub (k, v) (by simp))]
        exact h (k, v) (hsub (k, v) (by simp))
      · exact ih fun q hq => hsub q (by simp [hq])
  exact key es fun p hp => hp

theorem wfValList_mem {xs : List PyVal} (h : wfValList xs = true)
    {x : PyVal} (hx : x ∈ xs) : wfVal x = true := by
  induction xs with
  | nil => simp at hx
  | cons y ys ih =>
    rw [wfValList, Bool.and_eq_true] at h
    rcases List.mem_cons.mp hx with rfl | hx'
    · exact h.1
    · exact ih h.2 hx'

theorem wfValEntries_mem {es : List (Str × PyVal)} (h : wfValEntries es = true)
    {p : Str × PyVal} (hp : p ∈ es) : wfVal p.2 = true := by
  induction es with
  | nil => simp at hp
  | cons q qs ih =>
    obtain ⟨k, v⟩ := q
    rw [wfValEntries, Bool.and_eq_true] at h
    rcases List.mem_cons.mp hp with rfl | hp'
    · exact h.1
    · exact ih h.2 hp'

/-- `a == a` holds in Python; here it needs well-formedness because a dict
with duplicate keys (representable in the model, not in Python) would look
itself up wrongly. -/
theorem pyEq_refl_aux (n : Nat) :
    ∀ v : PyVal, sizeOf v ≤ n → wfVal v = true → pyEq v v = true := by
  induction n with
  | zero =>
    intro v hv _
    exfalso
    cases v <;> simp at hv
  | succ n ih =>
    intro v hv hwf
    cases v with
    | pnone => rfl
    | pbool b => cases b <;> rfl
    | pint i => simp [pyEq, numVal]
    | pfloat q => simp [pyEq, numVal]
    | pstr s => simp [pyEq]
    | plist xs =>
      rw [pyEq]
      apply pyEqList_refl
      intro x hx
      refine ih x ?_ (wfValList_mem (by rw [wfVal] at hwf; exact hwf) hx)
      have h1 : sizeOf x < sizeOf xs := List.sizeOf_lt_of_mem hx
      have h2 : sizeOf (PyVal.plist xs) = 1 + sizeOf xs := by simp
      omega
    | pdict es =>
      rw [pyEq, Bool.and_eq_true]
      rw [wfVal, Bool.and_eq_true] at hwf
      refine ⟨by simp, pyEqEntries_refl es (by simpa using hwf.1) ?_⟩
      intro p hp
      refine ih p.2 ?_ (wfValEntries_mem hwf.2 hp)
      have h1 : sizeOf p < sizeOf es := List.sizeOf_lt_of_mem hp
      have h2 : sizeOf (PyVal.pdict es) = 1 + sizeOf es := by simp
      have h3 : sizeOf p.2 < sizeOf p := by
        obtain ⟨a, b⟩ := p
        show sizeOf b < sizeOf (a, b)
        have hab : sizeOf (a, b) = 1 + sizeOf a + sizeOf b := rfl
        rw [hab]
        omega
      omega

theorem pyEq_refl (v : PyVal) (hwf : wfVal v = true) : pyEq v v = true :=
  pyEq_refl_aux (sizeOf v) v le_rfl hwf

/-! ## Drift detector: `compare_state_vs_live` (context_service.py)

The two inventories arrive as lists of resource records (the `.resource` of
each `CloudContext`); the function builds id-keyed dicts, walks the declared
side computing per-key diffs, then the observed side for additions. -/

/-- A resource record: the fields of `TerraformResource`/`AWSResource` that
`compare_state_vs_live` reads. -/
structure ResourceRec where
  resource_id : Str
  resource_type : Str
  resource_name : Str
  state_data : List (Str × PyVal)

/-- `StateDiff` (index_schemas.py): one matched resource with differing
attributes; `differences` holds `(key, state_value, live_value)` entries. -/
structure StateDiff where
  resource_id : Str
  resource_type : Str
  state_value : List (Str × PyVal)
  live_value : List (Str × PyVal)
  differences : List (Str × PyVal × PyVal)
  drift_detected : Bool

/-- `StateVsLiveComparison` (index_schemas.py), minus the echoed
`resource_type`/`account_id`/`region` request fields. -/
structure StateVsLiveComparison where
  state_only : List ResourceRec
  live_only : List ResourceRec
  differences : List StateDiff
  matched : Nat
  drift_detected : Bool

/-- Python `dict.get(key)`: the stored value, or `None` when absent. -/
def dictGet (d : List (Str × PyVal)) (k : Str) : PyVal :=
  match lookupStr d k with
  | some v => v
  | none => .pnone

def dictKeys (d : List (Str × PyVal)) : List Str := d.map Prod.fst

/-- `set(state_data.keys()) | set(live_data.keys())`.  Python set iteration
order is unspecified; the model fixes the concatenate-then-dedup order.  All
verified properties are independent of this order. -/
def unionKeys (sd ld : List (Str × PyVal)) : List Str :=
  (dictKeys sd ++ dictKeys ld).dedup

/-- The per-key diff loop: for each key of the union where
`state_data.get(key) != live_data.get(key)`, one `(key, state, live)` entry. -/
def diffEntries (sd ld : List (Str × PyVal)) : List (Str × PyVal × PyVal) :=
  (unionKeys sd ld).filterMap fun k =>
    if pyEq (dictGet sd k) (dictGet ld k) then none
    else some (k, dictGet sd k, dictGet ld k)

/-- Python dict-comprehension `{c.resource_id: c for c in rs}`: a later
record with the same id overwrites the earlier one in place. -/
def upsert (acc : List (Str × ResourceRec)) (k : Str) (v : ResourceRec) :
    List (Str × ResourceRec) :=
  if acc.any (fun p => p.1 == k) then
    acc.map fun p => if p.1 == k then (p.1, v) else p
  else acc ++ [(k, v)]

def buildById (rs : List ResourceRec) : List (Str × ResourceRec) :=
  rs.foldl (fun acc c => upsert acc c.resource_id c) []

def byIdFind (m : List (Str × ResourceRec)) (k : Str) : Option ResourceRec :=
  (m.find? (fun p => p.1 == k)).map Prod.snd

/-- `if resource_id and rid != resource_id: continue` — the filter is active
only for a truthy (non-`None`, non-empty) requested id. -/
def skipRid (ridFilter : Option Str) (rid : Str) : Bool :=
  match ridFilter with
  | none => false
  | some r => if r.isEmpty then false else rid != r

/-- The first loop of `compare_state_vs_live`, over the declared-side dict
items: returns `(state_only, differences, matched)` in iteration order. -/
def processDeclared (live_by_id : List (Str × ResourceRec))
    (ridFilter : Option Str) :
    List (Str × ResourceRec) → List ResourceRec × List StateDiff × Nat
  | [] => ([], [], 0)
  | (rid, ctx) :: rest =>
    let tail := processDeclared live_by_id ridFilter rest
    if skipRid ridFilter rid then tail
    else
      match byIdFind live_by_id rid with
      | none =>
        (⟨rid, ctx.resource_type, ctx.resource_name, ctx.state_data⟩ :: tail.1,
          tail.2.1, tail.2.2)
      | some live_ctx =>
        let diffs := diffEntries ctx.state_data live_ctx.state_data
        if diffs.isEmpty then (tail.1, tail.2.1, tail.2.2 + 1)
        else
          (tail.1,
            ⟨rid, ctx.resource_type, ctx.state_data, live_ctx.state_data,
              diffs, true⟩ :: tail.2.1,
            tail.2.2)

/-- The second loop: observed-side records whose id is absent from the
declared dict. -/
def processObserved (state_by_id : List (Str × ResourceRec))
    (ridFilter : Option Str) :
    List (Str × ResourceRec) → List ResourceRec
  | [] => []
  | (rid, ctx) :: rest =>
    let tail := processObserved state_by_id ridFilter rest
    if skipRid ridFilter rid then tail
    else
      match byIdFind state_by_id rid with
      | some _ => tail
      | none =>
        ⟨rid, ctx.resource_type, ctx.resource_name, ctx.state_data⟩ :: tail

/-- `ContextService.compare_state_vs_live`, from the point where both
inventories are in hand. -/
def compare_state_vs_live (state_resources live_contexts : List ResourceRec)
    (resource_id : Option Str) : StateVsLiveComparison :=
  let state_by_id := buildById state_resources
  let live_by_id := buildById live_contexts
  let declared := processDeclared live_by_id resource_id state_by_id
  let live_only := processObserved state_by_id resource_id live_by_id
  { state_only := declared.1
    live_only := live_only
    differences := declared.2.1
    matched := declared.2.2
    drift_detected :=
      !declared.1.isEmpty || !live_only.isEmpty || !declared.2.1.isEmpty }

theorem wfVal_dictGet (d : List (Str × PyVal)) (h : wfValEntries d = true)
    (k : Str) : wfVal (dictGet d k) = true := by
  rw [dictGet]
  cases hl : lookupStr d k with
  | none => rfl
  | some v =>
    rw [lookupStr] at hl
    cases hf : d.find? (fun p => p.1 == k) with
    | none => rw [hf] at hl; simp at hl
    | some p =>
      rw [hf] at hl
      simp only [Option.some.injEq] at hl
      rw [← hl]
      exact wfValEntries_mem h (List.mem_of_find?_eq_some hf)

/-- Comparing a well-formed attribute dict with itself yields no diffs. -/
theorem diffEntries_self (d : List (Str × PyVal))
    (h : wfValEntries d = true) : diffEntries d d = [] := by
  rw [diffEntries]
  rw [List.filterMap_eq_nil_iff]
  intro k _
  rw [pyEq_refl _ (wfVal_dictGet d h k)]
  rfl

/-- The dict comprehension keeps insertion order; with pairwise-distinct ids
it is the one-to-one pairing of each record with its id. -/
theorem foldl_upsert_eq (rs : List ResourceRec) :
    ∀ acc : List (Str × ResourceRec),
    (rs.map ResourceRec.resource_id).Nodup →
    (∀ r ∈ rs, ∀ p ∈ acc, p.1 ≠ r.resource_id) →
    rs.foldl (fun acc c => upsert acc c.resource_id c) acc
      = acc ++ rs.map (fun r => (r.resource_id, r)) := by
  induction rs with
  | nil =>
    intro acc _ _
    simp
  | cons r rest ih =>
    intro acc hnd hdisj
    rw [List.foldl_cons]
    have hany : acc.any (fun p => p.1 == r.resource_id) = false := by
      rw [List.any_eq_false]
      intro p hp
      simp [hdisj r (by simp) p hp]
    have hup : upsert acc r.resource_id r = acc ++ [(r.resource_id, r)] := by
      rw [upsert, hany]
      simp
    rw [hup]
    have hnd' : (rest.map ResourceRec.resource_id).Nodup :=
      (List.nodup_cons.mp (by simpa using hnd)).2
    have hhead : r.resource_id ∉ rest.map ResourceRec.resource_id :=
      (List.nodup_cons.mp (by simpa using hnd)).1
    rw [ih (acc ++ [(r.resource_id, r)]) hnd' ?_]
    · simp
    · intro r' hr' p hp
      rcases List.mem_append.mp hp with hp' | hp'
      · exact hdisj r' (by simp [hr']) p hp'
      · have hpe : p = (r.resource_id, r) := by simpa using hp'
        rw [hpe]
        intro hcontra
        exact hhead (List.mem_map.mpr ⟨r', hr', hcontra.symm⟩)

theorem buildById_eq (rs : List ResourceRec)
    (hnd : (rs.map ResourceRec.resource_id).Nodup) :
    buildById rs = rs.map fun r => (r.resource_id, r) := by
  rw [buildById, foldl_upsert_eq rs [] hnd (by simp)]
  simp

theorem byIdFind_self (rs : List ResourceRec)
    (hnd : (rs.map ResourceRec.resource_id).Nodup) (k : Str)
    (v : ResourceRec) (hm : (k, v) ∈ rs.map fun r => (r.resource_id, r)) :
    byIdFind (rs.map fun r => (r.resource_id, r)) k = some v := by
  have hkeys : ((rs.map fun r => (r.resource_id, r)).map Prod.fst).Nodup := by
    rw [List.map_map]
    simpa [Function.comp] using hnd
  rw [byIdFind, find_nodup _ hkeys k v hm]
  rfl

theorem processDeclared_all_matched (live_by_id : List (Str × ResourceRec)) :
    ∀ items : List (Str × ResourceRec),
    (∀ p ∈ items, byIdFind live_by_id p.1 = some p.2) →
    (∀ p ∈ items, wfValEntries p.2.state_data = true) →
    processDeclared live_by_id none items = ([], [], items.length) := by
  intro items
  induction items with
  | nil =>
    intro _ _
    rfl
  | cons p rest ih =>
    intro hfind hwf
    obtain ⟨rid, ctx⟩ := p
    rw [processDeclared]
    have hfd : byIdFind live_by_id rid = some ctx := hfind (rid, ctx) (by simp)
    have hd : diffEntries ctx.state_data ctx.state_data = [] :=
      diffEntries_self _ (hwf (rid, ctx) (by simp))
    have htail := ih (fun q hq => hfind q (by simp [hq]))
      (fun q hq => hwf q (by simp [hq]))
    simp [hfd, hd, htail, skipRid]

theorem processObserved_all_matched (state_by_id : List (Str × ResourceRec)) :
    ∀ items : List (Str × ResourceRec),
    (∀ p ∈ items, (byIdFind state_by_id p.1).isSome = true) →
    processObserved state_by_id none items = [] := by
  intro items
  induction items with
  | nil =>
    intro _
    rfl
  | cons p rest ih =>
    intro hfind
    obtain ⟨rid, ctx⟩ := p
    rw [processObserved]
    have htail := ih fun q hq => hfind q (by simp [hq])
    cases hf : byIdFind state_by_id rid with
    | none =>
      have := hfind (rid, ctx) (by simp)
      rw [hf] at this
      simp at this
    | some w =>
      simp [hf, htail, skipRid]

theorem not_isEmpty_or3_iff {α β γ : Type} (X : List α) (Y : List β)
    (Z : List γ) :
    ((!X.isEmpty || !Y.isEmpty || !Z.isEmpty) = true) ↔
      (X ≠ [] ∨ Y ≠ [] ∨ Z ≠ []) := by
  cases X <;> cases Y <;> cases Z <;> simp

/-- C1 (amended): `driftDetected` is true iff `state_only`, `live_only` or
`differences` is non-empty; and when the declared and observed inventories
are the identical list of (well-formed) records with pairwise-distinct
resource ids, the comparison detects no drift and `matchedCount` equals the
number of records.  (With duplicate resource ids the id-keyed dicts collapse
records, so `matchedCount` counts distinct ids instead.) -/
theorem drift_symmetry (decl obs rs : List ResourceRec) (rid : Option Str)
    (hnd : (rs.map ResourceRec.resource_id).Nodup)
    (hwf : ∀ r ∈ rs, wfValEntries r.state_data = true) :
    ((compare_state_vs_live decl obs rid).drift_detected = true ↔
      ((compare_state_vs_live decl obs rid).state_only ≠ [] ∨
        (compare_state_vs_live decl obs rid).live_only ≠ [] ∨
        (compare_state_vs_live decl obs rid).differences ≠ [])) ∧
    (compare_state_vs_live rs rs none).drift_detected = false ∧
    (compare_state_vs_live rs rs none).matched = rs.length ∧
    (compare_state_vs_live rs rs none).state_only = [] ∧
    (compare_state_vs_live rs rs none).live_only = [] ∧
    (compare_state_vs_live rs rs none).differences = [] := by
  have hM := buildById_eq rs hnd
  have hfind : ∀ p ∈ rs.map (fun r => (r.resource_id, r)),
      byIdFind (rs.map fun r => (r.resource_id, r)) p.1 = some p.2 := by
    intro p hp
    obtain ⟨r, hr, rfl⟩ := List.mem_map.mp hp
    exact byIdFind_self rs hnd r.resource_id r (List.mem_map.mpr ⟨r, hr, rfl⟩)
  have hwf' : ∀ p ∈ rs.map (fun r => (r.resource_id, r)),
      wfValEntries p.2.state_data = true := by
    intro p hp
    obtain ⟨r, hr, rfl⟩ := List.mem_map.mp hp
    exact hwf r hr
  have hdecl := processDeclared_all_matched
    (rs.map fun r => (r.resource_id, r)) _ hfind hwf'
  have hobs := processObserved_all_matched
    (rs.map fun r => (r.resource_id, r)) (rs.map fun r => (r.resource_id, r))
    (fun p hp => by rw [hfind p hp]; rfl)
  constructor
  · rw [compare_state_vs_live]
    exact not_isEmpty_or3_iff _ _ _
  · rw [compare_state_vs_live]
    simp only [hM, hdecl, hobs]
    simp

/-- Witness for C1: two distinct-id records compared against themselves. -/
theorem drift_symmetry_witness :
    (compare_state_vs_live
        [⟨lit ("i-1"), lit ("aws_instance"), lit ("web"),
            [(lit ("type"), PyVal.pstr (lit ("t2.micro")))]⟩,
         ⟨lit ("i-2"), lit ("aws_instance"), lit ("db"),
            [(lit ("type"), PyVal.pstr (lit ("t2.large")))]⟩]
        [⟨lit ("i-1"), lit ("aws_instance"), lit ("web"),
            [(lit ("type"), PyVal.pstr (lit ("t2.micro")))]⟩,
         ⟨lit ("i-2"), lit ("aws_instance"), lit ("db"),
            [(lit ("type"), PyVal.pstr (lit ("t2.large")))]⟩]
        none).drift_detected = false ∧
    (compare_state_vs_live
        [⟨lit ("i-1"), lit ("aws_instance"), lit ("web"),
            [(lit ("type"), PyVal.pstr (lit ("t2.micro")))]⟩,
         ⟨lit ("i-2"), lit ("aws_instance"), lit ("db"),
            [(lit ("type"), PyVal.pstr (lit ("t2.large")))]⟩]
        [⟨lit ("i-1"), lit ("aws_instance"), lit ("web"),
            [(lit ("type"), PyVal.pstr (lit ("t2.micro")))]⟩,
         ⟨lit ("i-2"), lit ("aws_instance"), lit ("db"),
            [(lit ("type"), PyVal.pstr (lit ("t2.large")))]⟩]
        none).matched = 2 :=
  ⟨((drift_symmetry [] []
      [⟨lit ("i-1"), lit ("aws_instance"), lit ("web"),
          [(lit ("type"), PyVal.pstr (lit ("t2.micro")))]⟩,
       ⟨lit ("i-2"), lit ("aws_instance"), lit ("db"),
          [(lit ("type"), PyVal.pstr (lit ("t2.large")))]⟩]
      none (by decide) (by decide)).2.1),
   ((drift_symmetry [] []
      [⟨lit ("i-1"), lit ("aws_instance"), lit ("web"),
          [(lit ("type"), PyVal.pstr (lit ("t2.micro")))]⟩,
       ⟨lit ("i-2"), lit ("aws_instance"), lit ("db"),
          [(lit ("type"), PyVal.pstr (lit ("t2.large")))]⟩]
      none (by decide) (by decide)).2.2.1)⟩

/-- Counterexample to C1 as stated: two *distinct* records sharing one
resource id.  `declared == observed` is the identical two-element set, yet
the id-keyed dicts collapse the pair, so `matchedCount = 1 ≠ 2 = |declared|`
(while `driftDetected` is still `false`). -/
theorem drift_symmetry_cex :
    (compare_state_vs_live
        [⟨lit ("i-1"), lit ("aws_instance"), lit ("web"), []⟩,
         ⟨lit ("i-1"), lit ("aws_instance"), lit ("db"), []⟩]
        [⟨lit ("i-1"), lit ("aws_instance"), lit ("web"), []⟩,
         ⟨lit ("i-1"), lit ("aws_instance"), lit ("db"), []⟩]
        none).matched = 1 ∧
    ([⟨lit ("i-1"), lit ("aws_instance"), lit ("web"), []⟩,
      ⟨lit ("i-1"), lit ("aws_instance"), lit ("db"), []⟩] :
        List ResourceRec).length = 2 ∧
    (compare_state_vs_live
        [⟨lit ("i-1"), lit ("aws_instance"), lit ("web"), []⟩,
         ⟨lit ("i-1"), lit ("aws_instance"), lit ("db"), []⟩]
        [⟨lit ("i-1"), lit ("aws_instance"), lit ("web"), []⟩,
         ⟨lit ("i-1"), lit ("aws_instance"), lit ("db"), []⟩]
        none).drift_detected = false ∧
    lit ("web") ≠ lit ("db") := by
  refine ⟨rfl, rfl, rfl, by decide⟩

/-- C2 (amended): for a matched resource id, the per-key diff list contains
the entry `(k, declared, observed)` exactly for the keys `k` of the key-set
union whose values differ under Python's null-defaulting `dict.get`; in
particular a key present on only one side produces a diff entry iff its
present value is non-null (a stored null is indistinguishable from absence,
since `.get` yields `None` for both). -/
theorem drift_per_key (sd ld : List (Str × PyVal)) (k : Str) :
    ((k, dictGet sd k, dictGet ld k) ∈ diffEntries sd ld ↔
      (k ∈ unionKeys sd ld ∧ pyEq (dictGet sd k) (dictGet ld k) = false)) ∧
    (lookupStr ld k = none →
      ((k, dictGet sd k, PyVal.pnone) ∈ diffEntries sd ld ↔
        (k ∈ dictKeys sd ∧ dictGet sd k ≠ PyVal.pnone))) := by
  have hmem : ∀ a b : PyVal, (k, a, b) ∈ diffEntries sd ld ↔
      (k ∈ unionKeys sd ld ∧ pyEq (dictGet sd k) (dictGet ld k) = false ∧
        a = dictGet sd k ∧ b = dictGet ld k) := by
    intro a b
    rw [diffEntries, List.mem_filterMap]
    constructor
    · rintro ⟨k', hk', hsome⟩
      by_cases hpe : pyEq (dictGet sd k') (dictGet ld k') = true
      · rw [if_pos hpe] at hsome
        exact absurd hsome (by simp)
      · rw [if_neg hpe] at hsome
        have h1 : k' = k := congrArg (fun t => t.1) (Option.some.injEq _ _ ▸ hsome)
        subst h1
        refine ⟨hk', Bool.eq_false_iff.mpr hpe, ?_, ?_⟩
        · have := congrArg (fun t => t.2.1) (Option.some.injEq _ _ ▸ hsome)
          simpa using this.symm
        · have := congrArg (fun t => t.2.2) (Option.some.injEq _ _ ▸ hsome)
          simpa using this.symm
    · rintro ⟨hk, hne, rfl, rfl⟩
      refine ⟨k, hk, ?_⟩
      rw [if_neg (by simp [hne])]
  constructor
  · rw [hmem]
    constructor
    · rintro ⟨h1, h2, _, _⟩
      exact ⟨h1, h2⟩
    · rintro ⟨h1, h2⟩
      exact ⟨h1, h2, rfl, rfl⟩
  · intro habs
    have hld : dictGet ld k = PyVal.pnone := by
      rw [dictGet, habs]
    have hnotin : k ∉ dictKeys ld := by
      intro hin
      obtain ⟨p, hp, hpk⟩ := List.mem_map.mp hin
      rw [lookupStr] at habs
      cases hf : ld.find? (fun q => q.1 == k) with
      | some q => rw [hf] at habs; simp at habs
      | none =>
        have := List.find?_eq_none.mp hf p hp
        simp [hpk] at this
    rw [hmem]
    constructor
    · rintro ⟨h1, h2, _, _⟩
      refine ⟨?_, ?_⟩
      · rcases List.mem_append.mp (List.mem_dedup.mp h1) with h | h
        · exact h
        · exact absurd h hnotin
      · intro hnone
        rw [hld, hnone] at h2
        simp [pyEq] at h2
    · rintro ⟨h1, h2⟩
      refine ⟨?_, ?_, rfl, hld.symm⟩
      · rw [unionKeys, List.mem_dedup]
        exact List.mem_append.mpr (Or.inl h1)
      · rw [hld]
        cases hv : dictGet sd k with
        | pnone => exact absurd hv h2
        | pbool b => cases b <;> rfl
        | pint i => rfl
        | pfloat q => rfl
        | pstr s => rfl
        | plist xs => rfl
        | pdict es => rfl

/-- Witness for C2: a key present only on the declared side with a non-null
value yields a diff entry. -/
theorem drift_per_key_witness :
    (lit ("type"), PyVal.pstr (lit ("t2.micro")), PyVal.pnone) ∈
      diffEntries [(lit ("type"), PyVal.pstr (lit ("t2.micro")))] [] :=
  ((drift_per_key [(lit ("type"), PyVal.pstr (lit ("t2.micro")))] []
      (lit ("type"))).2 rfl).mpr
    ⟨by decide, by simp [dictGet, lookupStr]⟩

/-- Counterexample to C2 as stated: the key `"k"` is present in the declared
attributes (with value `None`) and absent from the observed attributes, yet
no diff entry is appended — `dict.get` returns `None` for the missing key,
so the comparison sees equal values. -/
theorem drift_per_key_cex :
    diffEntries [(lit ("k"), PyVal.pnone)] [] = [] ∧
    lit ("k") ∈ dictKeys [(lit ("k"), PyVal.pnone)] ∧
    lookupStr [] (lit ("k")) = none ∧
    (compare_state_vs_live
        [⟨lit ("i-1"), lit ("t"), lit ("n"), [(lit ("k"), PyVal.pnone)]⟩]
        [⟨lit ("i-1"), lit ("t"), lit ("n"), []⟩]
        none).differences.length = 0 ∧
    (compare_state_vs_live
        [⟨lit ("i-1"), lit ("t"), lit ("n"), [(lit ("k"), PyVal.pnone)]⟩]
        [⟨lit ("i-1"), lit ("t"), lit ("n"), []⟩]
        none).matched = 1 :=
  ⟨rfl, by decide, rfl, rfl, rfl⟩

/-! ## Context assembler: `build_agent_context` (index_group_manager.py)

The external retrievals (session messages, memory/decision/terraform/cloud
search results) are modelled as an environment of pre-truncation texts with
their hit counts; `build_agent_context` then allocates the character budget
and assembles the blocks exactly as the code does. -/

inductive IndexGroup where
  | terraform
  | sessions
  | memory
  | context
deriving DecidableEq

/-- Which emitter produced a block (the code's five fixed headings). -/
inductive BlockKind where
  | session
  | memories
  | decisions
  | terraform
  | cloud
deriving DecidableEq

/-- What the five `_get_*_context` helpers would return before truncation:
`none` models "no session / no results / exception"; for the four search
helpers the `Nat` is the pre-truncation hit count (`len(results)`). -/
structure ContextEnv where
  sessionText : Option Str
  memoryText : Option (Str × Nat)
  decisionText : Option (Str × Nat)
  terraformText : Option (Str × Nat)
  cloudText : Option (Str × Nat)

def headerOf : BlockKind → Str
  | .session => lit ("## Session Context\n")
  | .memories => lit ("## Relevant Memories\n")
  | .decisions => lit ("## Past Decisions\n")
  | .terraform => lit ("## Terraform Context\n")
  | .cloud => lit ("## Cloud Context\n")

/-- `chars_per_group = char_budget // len(include_groups) if include_groups
else 0`, with `char_budget = max_context_tokens * 4`. -/
def perGroupBudget (include_groups : List IndexGroup)
    (max_context_tokens : Nat) : Nat :=
  if include_groups.isEmpty then 0
  else max_context_tokens * 4 / include_groups.length

/-- The `context_parts` assembly loop of `build_agent_context`: each emitted
block is recorded as `(kind, allocated budget, block text)` in append order.
The session block is dropped when its truncated text is empty (falsy); the
four dict-returning helpers always emit when results exist (a dict is truthy
even with empty text). -/
def contextBlocks (env : ContextEnv) (include_groups : List IndexGroup)
    (max_context_tokens : Nat) : List (BlockKind × Nat × Str) :=
  let cpb := perGroupBudget include_groups max_context_tokens
  (if IndexGroup.sessions ∈ include_groups then
    match env.sessionText with
    | some t =>
      if (t.take cpb).isEmpty then []
      else [(.session, cpb, headerOf .session ++ t.take cpb)]
    | none => []
   else []) ++
  (if IndexGroup.memory ∈ include_groups then
    (match env.memoryText with
     | some (t, _) => [(.memories, cpb, headerOf .memories ++ t.take cpb)]
     | none => []) ++
    (match env.decisionText with
     | some (t, _) =>
       [(.decisions, cpb / 2, headerOf .decisions ++ t.take (cpb / 2))]
     | none => [])
   else []) ++
  (if IndexGroup.terraform ∈ include_groups then
    match env.terraformText with
    | some (t, _) => [(.terraform, cpb, headerOf .terraform ++ t.take cpb)]
    | none => []
   else []) ++
  (if IndexGroup.context ∈ include_groups then
    match env.cloudText with
    | some (t, _) => [(.cloud, cpb, headerOf .cloud ++ t.take cpb)]
    | none => []
   else [])

/-- Python `"\n\n".join(parts)`. -/
def joinBlankLine : List Str → Str
  | [] => []
  | [p] => p
  | p :: q :: rest => p ++ '\n' :: '\n' :: joinBlankLine (q :: rest)

/-- `"\n\n".join(context_parts)`: the returned context string. -/
def build_agent_context (env : ContextEnv) (include_groups : List IndexGroup)
    (max_context_tokens : Nat) : Str :=
  joinBlankLine ((contextBlocks env include_groups max_context_tokens).map
    fun b => b.2.2)

theorem contextBlocks_block_bound (env : ContextEnv)
    (g : List IndexGroup) (tokens : Nat) :
    ∀ b ∈ contextBlocks env g tokens,
      b.2.2.length ≤ (headerOf b.1).length + b.2.1 := by
  intro b hb
  simp only [contextBlocks] at hb
  have hone : ∀ (k : BlockKind) (c : Nat) (t : Str),
      b ∈ [(k, c, headerOf k ++ t.take c)] →
      b.2.2.length ≤ (headerOf b.1).length + b.2.1 := by
    intro k c t hb'
    rw [List.mem_singleton] at hb'
    subst hb'
    simp only [List.length_append]
    exact Nat.add_le_add_left (List.length_take_le c t) _
  rcases List.mem_append.mp hb with h123 | h4
  rcases List.mem_append.mp h123 with h12 | h3
  rcases List.mem_append.mp h12 with h1 | h2
  · split at h1
    · split at h1
      · split at h1
        · simp at h1
        · exact hone _ _ _ h1
      · simp at h1
    · simp at h1
  · split at h2
    · rcases List.mem_append.mp h2 with h2' | h2'
      · split at h2'
        · exact hone _ _ _ h2'
        · simp at h2'
      · split at h2'
        · exact hone _ _ _ h2'
        · simp at h2'
    · simp at h2
  · split at h3
    · split at h3
      · exact hone _ _ _ h3
      · simp at h3
    · simp at h3
  · split at h4
    · split at h4
      · exact hone _ _ _ h4
      · simp at h4
    · simp at h4

theorem ite_budget_sum_le (g : List IndexGroup) (hnd : g.Nodup) (cpb : Nat) :
    ((if IndexGroup.sessions ∈ g then cpb else 0) +
        (if IndexGroup.memory ∈ g then cpb + cpb / 2 else 0) +
        (if IndexGroup.terraform ∈ g then cpb else 0)) +
        (if IndexGroup.context ∈ g then cpb else 0) ≤
      cpb * g.length + (if IndexGroup.memory ∈ g then cpb / 2 else 0) := by
  have hsub : ([IndexGroup.sessions, IndexGroup.memory, IndexGroup.terraform,
      IndexGroup.context].filter (· ∈ g)).length ≤ g.length := by
    refine List.Subperm.length_le (List.Nodup.subperm ?_ ?_)
    · exact List.Nodup.filter _ (by decide)
    · intro x hx
      simpa using (List.mem_filter.mp hx).2
  by_cases hs : IndexGroup.sessions ∈ g <;>
    by_cases hm : IndexGroup.memory ∈ g <;>
      by_cases ht : IndexGroup.terraform ∈ g <;>
        by_cases hc : IndexGroup.context ∈ g <;>
          simp [hs, hm, ht, hc] at hsub ⊢ <;>
          first
            | (have h4 := Nat.mul_le_mul_left cpb hsub; omega)
            | omega

theorem contextBlocks_budget_sum (env : ContextEnv) (g : List IndexGroup)
    (tokens : Nat) (hnd : g.Nodup) :
    ((contextBlocks env g tokens).map (fun b => b.2.1)).sum ≤
      perGroupBudget g tokens * g.length +
        (if IndexGroup.memory ∈ g then perGroupBudget g tokens / 2 else 0) := by
  simp only [contextBlocks, List.map_append, List.sum_append]
  refine Nat.le_trans (Nat.add_le_add (Nat.add_le_add
    (Nat.add_le_add ?_ ?_) ?_) ?_) (ite_budget_sum_le g hnd _)
  · split
    · split
      · split <;> simp
      · simp
    · simp
  · split
    · have hb1 : (List.map (fun b => b.2.1)
          (match env.memoryText with
           | some (t, _) => [(BlockKind.memories, perGroupBudget g tokens,
               headerOf BlockKind.memories ++ t.take (perGroupBudget g tokens))]
           | none => [])).sum ≤ perGroupBudget g tokens := by
        cases env.memoryText with
        | some p => obtain ⟨t, n⟩ := p; simp
        | none => simp
      have hb2 : (List.map (fun b => b.2.1)
          (match env.decisionText with
           | some (t, _) => [(BlockKind.decisions, perGroupBudget g tokens / 2,
               headerOf BlockKind.decisions
                 ++ t.take (perGroupBudget g tokens / 2))]
           | none => [])).sum ≤ perGroupBudget g tokens / 2 := by
        cases env.decisionText with
        | some p => obtain ⟨t, n⟩ := p; simp
        | none => simp
      rw [List.map_append, List.sum_append]
      exact Nat.add_le_add hb1 hb2
    · simp
  · split
    · cases env.terraformText with
      | some p => obtain ⟨t, n⟩ := p; simp
      | none => simp
    · simp
  · split
    · cases env.cloudText with
      | some p => obtain ⟨t, n⟩ := p; simp
      | none => simp
    · simp

/-- C3 (amended): with a non-empty set of included groups the per-group
budget is `floor((4*B)/|G|)` (equal split); each emitted block is at most
its allocated budget plus its fixed heading; and the sum of allocated
budgets is at most `4*B` plus an extra `floor(perGroupBudget/2)` — the
decisions block allocated on top of the memory group's budget when MEMORY is
requested.  Without MEMORY the sum never exceeds `4*B`. -/
theorem context_budget (env : ContextEnv) (g : List IndexGroup) (tokens : Nat)
    (hne : g ≠ []) (hnd : g.Nodup) :
    perGroupBudget g tokens = tokens * 4 / g.length ∧
    (∀ b ∈ contextBlocks env g tokens,
      b.2.2.length ≤ (headerOf b.1).length + b.2.1) ∧
    ((contextBlocks env g tokens).map (fun b => b.2.1)).sum ≤
      tokens * 4 + perGroupBudget g tokens / 2 ∧
    (IndexGroup.memory ∉ g →
      ((contextBlocks env g tokens).map (fun b => b.2.1)).sum ≤ tokens * 4) := by
  have hbud : perGroupBudget g tokens = tokens * 4 / g.length := by
    rw [perGroupBudget, if_neg (by simp [List.isEmpty_iff, hne])]
  have hmain := contextBlocks_budget_sum env g tokens hnd
  have hmul : perGroupBudget g tokens * g.length ≤ tokens * 4 := by
    rw [hbud]
    exact Nat.div_mul_le_self _ _
  refine ⟨hbud, contextBlocks_block_bound env g tokens, ?_, ?_⟩
  · refine Nat.le_trans hmain (Nat.add_le_add hmul ?_)
    split <;> simp
  · intro hnm
    refine Nat.le_trans hmain ?_
    rw [if_neg hnm]
    simpa using hmul

/-- Witness for C3 at a concrete environment and group set. -/
theorem context_budget_witness :
    ((contextBlocks
        ⟨some (lit ("s")), some (lit ("m"), 1), some (lit ("d"), 1),
          some (lit ("t"), 1), some (lit ("c"), 1)⟩
        [IndexGroup.memory, IndexGroup.terraform] 10).map
      (fun b => b.2.1)).sum ≤
      10 * 4 + perGroupBudget [IndexGroup.memory, IndexGroup.terraform] 10 / 2 :=
  (context_budget
    ⟨some (lit ("s")), some (lit ("m"), 1), some (lit ("d"), 1),
      some (lit ("t"), 1), some (lit ("c"), 1)⟩
    [IndexGroup.memory, IndexGroup.terraform] 10
    (by decide) (by decide)).2.2.1

/-- Counterexample to C3 as stated: with `G = {MEMORY}` and token budget 1
(character budget 4), the code allocates the full per-group budget 4 to the
memories block *and* another 2 to the decisions block — the allocated sum 6
exceeds the global budget 4 — and the memories block renders to 25
characters (its 21-character heading plus 4), exceeding its allocated 4. -/
theorem context_budget_cex :
    ((contextBlocks
        ⟨none, some (lit ("mmmmmmmm"), 1), some (lit ("dddd"), 1),
          none, none⟩
        [IndexGroup.memory] 1).map (fun b => b.2.1)).sum = 6 ∧
    ¬((6 : Nat) ≤ 1 * 4) ∧
    ((contextBlocks
        ⟨none, some (lit ("mmmmmmmm"), 1), some (lit ("dddd"), 1),
          none, none⟩
        [IndexGroup.memory] 1).map (fun b => b.2.2.length)) = [25, 20] ∧
    ((contextBlocks
        ⟨none, some (lit ("mmmmmmmm"), 1), some (lit ("dddd"), 1),
          none, none⟩
        [IndexGroup.memory] 1).map (fun b => b.2.1)) = [4, 2] ∧
    ¬((25 : Nat) ≤ 4) := by
  decide

/-- C4 (amended): blocks are emitted in the fixed priority order session,
memories, decisions, **terraform, then cloud** (the code emits the terraform
block before the cloud-context block), independent of the order of the
requested groups. -/
theorem context_order (env : ContextEnv) (g : List IndexGroup) (tokens : Nat) :
    List.Sublist ((contextBlocks env g tokens).map (fun b => b.1))
      [BlockKind.session, BlockKind.memories, BlockKind.decisions,
        BlockKind.terraform, BlockKind.cloud] ∧
    ∀ g' : List IndexGroup, g.Perm g' →
      contextBlocks env g tokens = contextBlocks env g' tokens := by
  constructor
  · simp only [contextBlocks, List.map_append]
    have htarget :
        ([BlockKind.session] ++ [BlockKind.memories, BlockKind.decisions]
            ++ [BlockKind.terraform] ++ [BlockKind.cloud] : List BlockKind) =
          [BlockKind.session, BlockKind.memories, BlockKind.decisions,
            BlockKind.terraform, BlockKind.cloud] := rfl
    rw [← htarget]
    refine List.Sublist.append (List.Sublist.append
      (List.Sublist.append ?_ ?_) ?_) ?_
    · split
      · split
        · split
          · exact List.nil_sublist _
          · exact List.Sublist.refl _
        · exact List.nil_sublist _
      · exact List.nil_sublist _
    · rw [show ([BlockKind.memories, BlockKind.decisions] : List BlockKind) =
        [BlockKind.memories] ++ [BlockKind.decisions] from rfl]
      split
      · rw [List.map_append]
        refine List.Sublist.append ?_ ?_
        · split
          · exact List.Sublist.refl _
          · exact List.nil_sublist _
        · split
          · exact List.Sublist.refl _
          · exact List.nil_sublist _
      · exact List.nil_sublist _
    · split
      · split
        · exact List.Sublist.refl _
        · exact List.nil_sublist _
      · exact List.nil_sublist _
    · split
      · split
        · exact List.Sublist.refl _
        · exact List.nil_sublist _
      · exact List.nil_sublist _
  · intro g' hp
    have hlen : g.length = g'.length := hp.length_eq
    have hie : g.isEmpty = g'.isEmpty := by
      cases g with
      | nil =>
        rw [List.Perm.eq_nil hp.symm]
      | cons x xs =>
        cases g' with
        | nil => exact absurd (List.Perm.eq_nil hp) (by simp)
        | cons y ys => rfl
    simp only [contextBlocks, perGroupBudget, hie, hlen, hp.mem_iff]

/-- Witness for C4: permuting the requested groups leaves the assembled
blocks unchanged. -/
theorem context_order_witness :
    contextBlocks
        ⟨some (lit ("s")), some (lit ("m"), 1), some (lit ("d"), 1),
          some (lit ("t"), 1), some (lit ("c"), 1)⟩
        [IndexGroup.terraform, IndexGroup.memory] 10 =
      contextBlocks
        ⟨some (lit ("s")), some (lit ("m"), 1), some (lit ("d"), 1),
          some (lit ("t"), 1), some (lit ("c"), 1)⟩
        [IndexGroup.memory, IndexGroup.terraform] 10 :=
  (context_order
    ⟨some (lit ("s")), some (lit ("m"), 1), some (lit ("d"), 1),
      some (lit ("t"), 1), some (lit ("c"), 1)⟩
    [IndexGroup.terraform, IndexGroup.memory] 10).2
    [IndexGroup.memory, IndexGroup.terraform] (by decide)

/-- Counterexample to C4 as stated: with all four groups requested and every
source non-empty, the emitted order is session, memories, decisions,
terraform, cloud — not the claimed session, memories, decisions, cloud,
terraform. -/
theorem context_order_cex :
    ((contextBlocks
        ⟨some (lit ("s")), some (lit ("m"), 1), some (lit ("d"), 1),
          some (lit ("t"), 1), some (lit ("c"), 1)⟩
        [IndexGroup.sessions, IndexGroup.memory, IndexGroup.terraform,
          IndexGroup.context] 100).map (fun b => b.1)) =
      [BlockKind.session, BlockKind.memories, BlockKind.decisions,
        BlockKind.terraform, BlockKind.cloud] ∧
    ((contextBlocks
        ⟨some (lit ("s")), some (lit ("m"), 1), some (lit ("d"), 1),
          some (lit ("t"), 1), some (lit ("c"), 1)⟩
        [IndexGroup.sessions, IndexGroup.memory, IndexGroup.terraform,
          IndexGroup.context] 100).map (fun b => b.1)) ≠
      [BlockKind.session, BlockKind.memories, BlockKind.decisions,
        BlockKind.cloud, BlockKind.terraform] := by
  decide

/-! ## Fan-out merge: `search_context` (context_service.py)

Per-collection hit lists are concatenated in collection order, filtered by
resource type, scored `1 - distance`, stably sorted by score descending
(Python's `list.sort(key=..., reverse=True)` is stable), and truncated to
`top_k`.  `search_memories` (memory_service.py) merges identically.  A
stable descending sort is uniquely determined by its two characteristic
properties (sortedness, filter-stability), so it is modelled by insertion
sort and those two properties are proved. -/

/-- A raw hit as returned by the store for one collection: parallel entries
of `documents` / `metadatas` / `distances`. -/
structure RawHit where
  doc : Str
  metadata : List (Str × PyVal)
  distance : ℚ

/-- `ContextSearchResult`: the per-hit payload plus `relevance_score = 1 -
distance` (the `CloudContext` reconstruction is not modelled — the merge
only reads the score). -/
structure CtxSearchResult where
  doc : Str
  metadata : List (Str × PyVal)
  relevance_score : ℚ

/-- `if resource_types and metadata.get("resource_type") not in
resource_types: continue` — the filter is active only for a truthy
(non-`None`, non-empty) list, and keeps a hit iff its `resource_type`
metadata is one of the requested strings. -/
def keepHit (resource_types : Option (List Str)) (h : RawHit) : Bool :=
  match resource_types with
  | none => true
  | some l =>
    if l.isEmpty then true
    else
      match dictGet h.metadata (lit ("resource_type")) with
      | .pstr s => decide (s ∈ l)
      | _ => false

/-- The `all_results` list before sorting: per-collection hits in collection
order, filtered, scored `1 - distance`. -/
def contextCandidates (collResults : List (List RawHit))
    (resource_types : Option (List Str)) : List CtxSearchResult :=
  (collResults.map fun hits =>
    hits.filterMap fun h =>
      if keepHit resource_types h then
        some ⟨h.doc, h.metadata, 1 - h.distance⟩
      else none).flatten

/-- Stable insertion into a descending-sorted list: a new element goes after
every element with a score ≥ its own. -/
def insertDesc {α : Type} (score : α → ℚ) (x : α) : List α → List α
  | [] => [x]
  | y :: ys =>
    if score x ≤ score y then y :: insertDesc score x ys
    else x :: y :: ys

/-- Python's stable `sort(key=score, reverse=True)`. -/
def sortByScoreDesc {α : Type} (score : α → ℚ) (l : List α) : List α :=
  l.foldl (fun acc x => insertDesc score x acc) []

/-- `search_context`'s merge-and-truncate step. -/
def search_context_merge (collResults : List (List RawHit))
    (resource_types : Option (List Str)) (top_k : Nat) :
    List CtxSearchResult :=
  (sortByScoreDesc (fun r => r.relevance_score)
    (contextCandidates collResults resource_types)).take top_k

theorem mem_insertDesc {α : Type} (score : α → ℚ) (x a : α) (l : List α) :
    a ∈ insertDesc score x l ↔ a = x ∨ a ∈ l := by
  induction l with
  | nil => simp [insertDesc]
  | cons y ys ih =>
    rw [insertDesc]
    split
    · simp only [List.mem_cons, ih]
      tauto
    · simp only [List.mem_cons]

theorem sorted_insertDesc {α : Type} (score : α → ℚ) (x : α) (l : List α)
    (h : List.Pairwise (fun a b => score b ≤ score a) l) :
    List.Pairwise (fun a b => score b ≤ score a) (insertDesc score x l) := by
  induction l with
  | nil => simp [insertDesc]
  | cons y ys ih =>
    rw [insertDesc]
    rw [List.pairwise_cons] at h
    split
    · rw [List.pairwise_cons]
      refine ⟨?_, ih h.2⟩
      intro b hb
      rcases (mem_insertDesc score x b ys).mp hb with rfl | hb'
      · assumption
      · exact h.1 b hb'
    · rw [List.pairwise_cons]
      refine ⟨?_, List.pairwise_cons.mpr h⟩
      intro b hb
      have hyx : score y < score x := lt_of_not_ge (by assumption)
      rcases List.mem_cons.mp hb with rfl | hb'
      · exact le_of_lt hyx
      · exact le_of_lt (lt_of_le_of_lt (h.1 b hb') hyx)

theorem filter_insertDesc {α : Type} (score : α → ℚ) (x : α) (l : List α)
    (s : ℚ) (hs : List.Pairwise (fun a b => score b ≤ score a) l) :
    (insertDesc score x l).filter (fun a => score a == s) =
      if score x == s then
        l.filter (fun a => score a == s) ++ [x]
      else l.filter (fun a => score a == s) := by
  induction l with
  | nil =>
    rw [insertDesc]
    cases hx : (score x == s) <;> simp [List.filter, hx]
  | cons y ys ih =>
    rw [insertDesc]
    rw [List.pairwise_cons] at hs
    split
    · rw [List.filter_cons, ih hs.2]
      cases hy : (score y == s) <;> cases hx : (score x == s) <;>
        simp [hy, hx]
    · have hyx : score y < score x := lt_of_not_ge (by assumption)
      cases hx : (score x == s)
      · simp [List.filter_cons, hx]
      · have hsx : score x = s := by simpa using hx
        have hfil : (y :: ys).filter (fun a => score a == s) = [] := by
          rw [List.filter_eq_nil_iff]
          intro b hb
          have hbs : score b < s := by
            rcases List.mem_cons.mp hb with rfl | hb'
            · rw [← hsx]; exact hyx
            · rw [← hsx]; exact lt_of_le_of_lt (hs.1 b hb') hyx
          simp [ne_of_lt hbs]
        rw [List.filter_cons]
        simp [hx, hfil]

theorem sorted_foldl_insert {α : Type} (score : α → ℚ) (l : List α) :
    ∀ acc : List α, List.Pairwise (fun a b => score b ≤ score a) acc →
      List.Pairwise (fun a b => score b ≤ score a)
        (l.foldl (fun acc x => insertDesc score x acc) acc) := by
  induction l with
  | nil =>
    intro acc hacc
    simpa using hacc
  | cons x xs ih =>
    intro acc hacc
    rw [List.foldl_cons]
    exact ih _ (sorted_insertDesc score x acc hacc)

theorem filter_foldl_insert {α : Type} (score : α → ℚ) (s : ℚ)
    (l : List α) :
    ∀ acc : List α, List.Pairwise (fun a b => score b ≤ score a) acc →
      (l.foldl (fun acc x => insertDesc score x acc) acc).filter
          (fun a => score a == s) =
        acc.filter (fun a => score a == s) ++
          l.filter (fun a => score a == s) := by
  induction l with
  | nil =>
    intro acc hacc
    simp
  | cons x xs ih =>
    intro acc hacc
    rw [List.foldl_cons, ih _ (sorted_insertDesc score x acc hacc),
      filter_insertDesc score x acc s hacc, List.filter_cons]
    cases hx : (score x == s) <;> simp [hx]

/-- C8: the merged federated result list is sorted non-increasing by
`relevance_score`, and the sort is stable: for every score value, the hits
carrying that score appear in exactly their concatenation order
(origin-collection order first, then the store's native order). -/
theorem merge_ordering (collResults : List (List RawHit))
    (resource_types : Option (List Str)) (top_k : Nat) :
    List.Pairwise (fun a b => b.relevance_score ≤ a.relevance_score)
      (search_context_merge collResults resource_types top_k) ∧
    ∀ s : ℚ,
      (sortByScoreDesc (fun r => r.relevance_score)
          (contextCandidates collResults resource_types)).filter
        (fun r => r.relevance_score == s) =
      (contextCandidates collResults resource_types).filter
        (fun r => r.relevance_score == s) := by
  constructor
  · rw [search_context_merge]
    exact List.Pairwise.sublist (List.take_sublist _ _)
      (sorted_foldl_insert _ _ [] (by simp))
  · intro s
    rw [sortByScoreDesc, filter_foldl_insert _ s _ [] (by simp)]
    simp

/-! ## Memory lifecycle: `promote_to_longterm` (memory_service.py)

The ChromaDB client is modelled as explicit state: a list of named
collections, each holding `(id, document, metadata)` entries.  A collection
that has never been created is distinct from an empty one (reads treat both
as empty; writes create on demand). -/

structure StoreEntry where
  id : Str
  doc : Str
  meta : List (Str × PyVal)

structure VecStore where
  collections : List (Str × List StoreEntry)

def getEntries (st : VecStore) (name : Str) : List StoreEntry :=
  match st.collections.find? (fun c => c.1 == name) with
  | some c => c.2
  | none => []

def collExists (st : VecStore) (name : Str) : Bool :=
  st.collections.any (fun c => c.1 == name)

/-- `get_by_ids` via `MultiVectorStoreService.get_by_ids`: a missing
collection reads as empty; otherwise the entries whose id is requested. -/
def get_by_ids (st : VecStore) (name : Str) (ids : List Str) :
    List StoreEntry :=
  if collExists st name then
    (getEntries st name).filter (fun e => e.id ∈ ids)
  else []

/-- `update_documents` restricted to how `get_memory` calls it: replace the
metadata of the entry with the given id.  A missing collection is a no-op
(`get_collection(..., create_if_missing=False)` returns `None`). -/
def update_meta (st : VecStore) (name : Str) (theId : Str)
    (newMeta : List (Str × PyVal)) : VecStore :=
  ⟨st.collections.map fun c =>
    if c.1 == name then
      (c.1, c.2.map fun e => if e.id == theId then ⟨e.id, e.doc, newMeta⟩ else e)
    else c⟩

/-- `delete_documents(ids=[...])`: a missing collection is a no-op. -/
def delete_by_ids (st : VecStore) (name : Str) (ids : List Str) : VecStore :=
  ⟨st.collections.map fun c =>
    if c.1 == name then (c.1, c.2.filter fun e => e.id ∉ ids) else c⟩

/-- `add_documents`: `get_collection` creates the collection if missing;
metadata is sanitized; the entry is appended. -/
def add_document (st : VecStore) (name : Str) (text : Str)
    (meta : List (Str × PyVal)) (theId : Str) : VecStore :=
  if collExists st name then
    ⟨st.collections.map fun c =>
      if c.1 == name then (c.1, c.2 ++ [⟨theId, text, sanitize_metadata meta⟩])
      else c⟩
  else ⟨st.collections ++ [(name, [⟨theId, text, sanitize_metadata meta⟩])]⟩

/-- Collection count, as `get_collection_stats` reports it. -/
def collCount (st : VecStore) (name : Str) : Nat := (getEntries st name).length

/-- `MemoryType` (index_schemas.py). -/
inductive MemoryType where
  | session
  | longterm
  | decision
deriving DecidableEq

def memTypeVal : MemoryType → Str
  | .session => lit ("session")
  | .longterm => lit ("longterm")
  | .decision => lit ("decision")

/-- `MemoryService._get_collection_name`: `memory__{type}__{user}`. -/
def memCollName (user_id : Str) (t : MemoryType) : Str :=
  build_collection_name (lit ("memory")) (memTypeVal t) user_id none none

/-- The `MemoryEntry` fields `promote_to_longterm` touches.  Timestamps are
carried as their ISO strings; `importance_score` as a rational. -/
structure MemoryEntryM where
  memory_id : Str
  user_id : Str
  session_id : Option Str
  memory_type : MemoryType
  content : Str
  importance_score : ℚ
  tags : List Str
  created_at : Str
  accessed_at : Str
  access_count : Int

/-- Lookup returning the raw value, `default` when absent
(`metadata.get(k, default)`). -/
def dictGetD (d : List (Str × PyVal)) (k : Str) (default : PyVal) : PyVal :=
  match lookupStr d k with
  | some v => v
  | none => default

/-- Python `str()` coercion of a metadata value into a string field. -/
def pyAsStr : PyVal → Str
  | .pstr s => s
  | v => pyStr v

/-- Python `float()` of a stored numeric; non-numeric values raise in Python
and are unreachable for metadata this service wrote (modelled as 0). -/
def pyToFloat : PyVal → ℚ
  | .pfloat q => q
  | .pint i => (i : ℚ)
  | .pbool b => if b then 1 else 0
  | _ => 0

/-- Python `int()` of a stored numeric; same caveat as `pyToFloat`. -/
def pyToInt : PyVal → Int
  | .pint i => i
  | .pbool b => if b then 1 else 0
  | .pfloat q => q.num.tdiv (q.den : Int)
  | _ => 0

/-- `MemoryType(value)`: an unknown value raises in Python and is
unreachable for metadata this service wrote. -/
def parseMemType (s : Str) : MemoryType :=
  if s == lit ("session") then .session
  else if s == lit ("longterm") then .longterm
  else if s == lit ("decision") then .decision
  else .session

/-- Python `s.split(",")`. -/
def splitComma : Str → List Str
  | [] => [[]]
  | c :: rest =>
    if c = ',' then [] :: splitComma rest
    else
      match splitComma rest with
      | [] => [[c]]
      | p :: ps => (c :: p) :: ps

/-- `MemoryService._metadata_to_memory`; `now` stands for
`datetime.utcnow().isoformat()`. -/
def metadata_to_memory (now : Str) (content : Str)
    (meta : List (Str × PyVal)) : MemoryEntryM :=
  let tagsRaw := pyAsStr (dictGetD meta (lit ("tags")) (.pstr []))
  { memory_id := pyAsStr (dictGetD meta (lit ("memory_id")) (.pstr []))
    user_id := pyAsStr (dictGetD meta (lit ("user_id")) (.pstr []))
    session_id :=
      let s := pyAsStr (dictGetD meta (lit ("session_id")) (.pstr []))
      if s.isEmpty then none else some s
    memory_type :=
      parseMemType (pyAsStr (dictGetD meta (lit ("memory_type"))
        (.pstr (lit ("session")))))
    content := content
    importance_score :=
      pyToFloat (dictGetD meta (lit ("importance_score")) (.pfloat (1 / 2)))
    tags := if tagsRaw.isEmpty then [] else splitComma tagsRaw
    created_at :=
      let s := pyAsStr (dictGetD meta (lit ("created_at")) (.pstr []))
      if s.isEmpty then now else s
    accessed_at :=
      let s := pyAsStr (dictGetD meta (lit ("accessed_at")) (.pstr []))
      if s.isEmpty then now else s
    access_count := pyToInt (dictGetD meta (lit ("access_count")) (.pint 0)) }

/-- `MemoryService._memory_to_metadata`. -/
def memory_to_metadata (m : MemoryEntryM) : List (Str × PyVal) :=
  [(lit ("memory_id"), .pstr m.memory_id),
   (lit ("user_id"), .pstr m.user_id),
   (lit ("session_id"), .pstr (m.session_id.getD [])),
   (lit ("memory_type"), .pstr (memTypeVal m.memory_type)),
   (lit ("importance_score"), .pfloat m.importance_score),
   (lit ("tags"), .pstr (if m.tags.isEmpty then [] else joinComma m.tags)),
   (lit ("created_at"), .pstr m.created_at),
   (lit ("accessed_at"), .pstr m.accessed_at),
   (lit ("access_count"), .pint m.access_count)]

/-- `MemoryService.get_memory` for one collection type: on a hit, bump the
access bookkeeping and write it back; on a miss, try the next type. -/
def get_memory_types (st : VecStore) (now : Str) (user_id : Str)
    (memory_id : Str) : List MemoryType → Option MemoryEntryM × VecStore
  | [] => (none, st)
  | t :: rest =>
    let collName := memCollName user_id t
    match get_by_ids st collName [memory_id] with
    | [] => get_memory_types st now user_id memory_id rest
    | e :: _ =>
      let memory := metadata_to_memory now e.doc e.meta
      let memory := { memory with accessed_at := now,
                                  access_count := memory.access_count + 1 }
      (some memory,
        update_meta st collName memory_id (memory_to_metadata memory))

/-- `MemoryService.get_memory`: a type hint checks only that collection. -/
def get_memory (st : VecStore) (now : Str) (user_id : Str) (memory_id : Str)
    (memory_type : Option MemoryType) : Option MemoryEntryM × VecStore :=
  get_memory_types st now user_id memory_id
    (match memory_type with
     | some t => [t]
     | none => [.session, .longterm, .decision])

/-- `MemoryService.promote_to_longterm`: read from the session collection;
absent → `None` with no write; present → delete from session, re-add to
longterm with mutated type. -/
def promote_to_longterm (st : VecStore) (now : Str) (user_id : Str)
    (memory_id : Str) : Option MemoryEntryM × VecStore :=
  match get_memory st now user_id memory_id (some .session) with
  | (none, st') => (none, st')
  | (some memory, st') =>
    let session_collection := memCollName user_id .session
    let st2 := delete_by_ids st' session_collection [memory_id]
    let memory := { memory with memory_type := MemoryType.longterm }
    let longterm_collection := memCollName user_id .longterm
    let st3 := add_document st2 longterm_collection memory.content
      (memory_to_metadata memory) memory_id
    (some memory, st3)

/-- C9: promoting a memory id absent from the session collection returns
`None` and leaves the store — in particular both collections' contents and
counts — completely unchanged. -/
theorem promote_absent_noop (st : VecStore) (now user_id memory_id : Str)
    (habs : ∀ e ∈ getEntries st (memCollName user_id MemoryType.session),
      e.id ≠ memory_id) :
    promote_to_longterm st now user_id memory_id = (none, st) ∧
    collCount ((promote_to_longterm st now user_id memory_id).2)
        (memCollName user_id MemoryType.session) =
      collCount st (memCollName user_id MemoryType.session) ∧
    collCount ((promote_to_longterm st now user_id memory_id).2)
        (memCollName user_id MemoryType.longterm) =
      collCount st (memCollName user_id MemoryType.longterm) := by
  have hempty : get_by_ids st (memCollName user_id MemoryType.session)
      [memory_id] = [] := by
    rw [get_by_ids]
    split
    · rw [List.filter_eq_nil_iff]
      intro e he
      simp [habs e he]
    · rfl
  have hmain : promote_to_longterm st now user_id memory_id = (none, st) := by
    rw [promote_to_longterm, get_memory, get_memory_types]
    rw [hempty]
    rfl
  refine ⟨hmain, ?_, ?_⟩ <;> rw [hmain]

/-- Witness for C9: a store holding only an unrelated longterm collection. -/
theorem promote_absent_noop_witness :
    promote_to_longterm
        ⟨[(memCollName (lit ("u1")) MemoryType.longterm,
           [⟨lit ("other-id"), lit ("doc"), []⟩])]⟩
        (lit ("2024-01-01T00:00:00")) (lit ("u1")) (lit ("mem-42")) =
      (none,
        ⟨[(memCollName (lit ("u1")) MemoryType.longterm,
           [⟨lit ("other-id"), lit ("doc"), []⟩])]⟩) :=
  (promote_absent_noop
    ⟨[(memCollName (lit ("u1")) MemoryType.longterm,
       [⟨lit ("other-id"), lit ("doc"), []⟩])]⟩
    (lit ("2024-01-01T00:00:00")) (lit ("u1")) (lit ("mem-42"))
    (by decide)).1

/-! ## Unified search: `unified_search` (index_group_manager.py)

The four sub-searches are external collaborators; their results are the
parameters.  `unified_search` starts from an all-empty `UnifiedSearchResult`
and conditionally fills each field, mirroring the code's three `if` blocks
(requesting MEMORY fills both `memory` and `decisions`; SESSIONS has no
block). -/

structure UnifiedSearchResult (α β γ δ : Type) where
  terraform : List α := []
  memory : List β := []
  decisions : List γ := []
  context : List δ := []

def unified_search {α β γ δ : Type} (terraformRes : List α) (memoryRes : List β)
    (decisionRes : List γ) (contextRes : List δ)
    (index_groups : List IndexGroup) : UnifiedSearchResult α β γ δ :=
  let result : UnifiedSearchResult α β γ δ := {}
  let result :=
    if IndexGroup.terraform ∈ index_groups then
      { result with terraform := terraformRes }
    else result
  let result :=
    if IndexGroup.memory ∈ index_groups then
      { result with memory := memoryRes, decisions := decisionRes }
    else result
  let result :=
    if IndexGroup.context ∈ index_groups then
      { result with context := contextRes }
    else result
  result

/-- C10: only requested groups are populated.  An unrequested group's list
is empty (so non-empty output implies the group was requested), and
requesting MEMORY populates both `memory` and `decisions`. -/
theorem unified_search_frame {α β γ δ : Type} (terraformRes : List α)
    (memoryRes : List β) (decisionRes : List γ) (contextRes : List δ)
    (index_groups : List IndexGroup) :
    (IndexGroup.terraform ∉ index_groups →
      (unified_search terraformRes memoryRes decisionRes contextRes
        index_groups).terraform = []) ∧
    (IndexGroup.memory ∉ index_groups →
      (unified_search terraformRes memoryRes decisionRes contextRes
          index_groups).memory = [] ∧
        (unified_search terraformRes memoryRes decisionRes contextRes
          index_groups).decisions = []) ∧
    (IndexGroup.context ∉ index_groups →
      (unified_search terraformRes memoryRes decisionRes contextRes
        index_groups).context = []) ∧
    (IndexGroup.terraform ∈ index_groups →
      (unified_search terraformRes memoryRes decisionRes contextRes
        index_groups).terraform = terraformRes) ∧
    (IndexGroup.memory ∈ index_groups →
      (unified_search terraformRes memoryRes decisionRes contextRes
          index_groups).memory = memoryRes ∧
        (unified_search terraformRes memoryRes decisionRes contextRes
          index_groups).decisions = decisionRes) ∧
    (IndexGroup.context ∈ index_groups →
      (unified_search terraformRes memoryRes decisionRes contextRes
        index_groups).context = contextRes) := by
  by_cases ht : IndexGroup.terraform ∈ index_groups <;>
    by_cases hm : IndexGroup.memory ∈ index_groups <;>
      by_cases hc : IndexGroup.context ∈ index_groups <;>
        simp [unified_search, ht, hm, hc]

/-- Witness for C10: requesting only MEMORY populates `memory` and
`decisions` and leaves `terraform` and `context` empty. -/
theorem unified_search_frame_witness :
    (unified_search [lit ("tf-hit")] [lit ("mem-hit")] [lit ("dec-hit")]
        [lit ("ctx-hit")] [IndexGroup.memory]).terraform = [] ∧
    (unified_search [lit ("tf-hit")] [lit ("mem-hit")] [lit ("dec-hit")]
        [lit ("ctx-hit")] [IndexGroup.memory]).memory = [lit ("mem-hit")] ∧
    (unified_search [lit ("tf-hit")] [lit ("mem-hit")] [lit ("dec-hit")]
        [lit ("ctx-hit")] [IndexGroup.memory]).decisions = [lit ("dec-hit")] ∧
    (unified_search [lit ("tf-hit")] [lit ("mem-hit")] [lit ("dec-hit")]
        [lit ("ctx-hit")] [IndexGroup.memory]).context = [] :=
  ⟨(unified_search_frame [lit ("tf-hit")] [lit ("mem-hit")] [lit ("dec-hit")]
      [lit ("ctx-hit")] [IndexGroup.memory]).1 (by decide),
   ((unified_search_frame [lit ("tf-hit")] [lit ("mem-hit")] [lit ("dec-hit")]
      [lit ("ctx-hit")] [IndexGroup.memory]).2.2.2.2.1 (by decide)).1,
   ((unified_search_frame [lit ("tf-hit")] [lit ("mem-hit")] [lit ("dec-hit")]
      [lit ("ctx-hit")] [IndexGroup.memory]).2.2.2.2.1 (by decide)).2,
   (unified_search_frame [lit ("tf-hit")] [lit ("mem-hit")] [lit ("dec-hit")]
      [lit ("ctx-hit")] [IndexGroup.memory]).2.2.1 (by decide)⟩

end RagInfra
